import Mathlib

/-
  Verification of FastScribe, scripts/transcribe_parallel.py.

  Shallow embedding: the pure decision logic of the script is translated
  into Lean functions.  External effects (subprocess invocations, the
  filesystem, the Whisper engine) are modelled as explicit inputs:
  a probe result is an `Option`, a chunk progress file read is a
  `ChannelRead`, a worker outcome is an `Except`, and fragment files are
  a map from chunk index to optional contents.  Durations are rationals
  (the script uses Python floats only for exact small arithmetic here).
-/

/-- Record written by `write_progress` and by `TqdmProgressCapture._write_progress`
to the file `progress_chunk_<i>.json`: chunk index, current, total, percent
and status. -/
structure ProgressData where
  chunk : Nat
  current : Int
  total : Int
  percent : Int
  status : String
  deriving DecidableEq, Repr

/-- Percent computed by `write_progress` and `_write_progress`:
`int(current / total * 100) if total > 0 else 0` (truncating division on the
integer inputs used by the script). -/
def progressPercent (current total : Int) : Int :=
  if total > 0 then current * 100 / total else 0

/-- One record as assembled by `write_progress(current, total, status)` for a
given chunk. -/
def writeProgressRecord (chunk : Nat) (current total : Int) (status : String) : ProgressData :=
  { chunk := chunk, current := current, total := total,
    percent := progressPercent current total, status := status }

/-- Chunk boundary computed by `create_chunk` inside `split_video_into_chunks`:
start offset `(chunk_index - 1) * chunk_duration` and either a bounded
duration (`-t chunk_duration`) or, for the last chunk, no duration limit. -/
structure ChunkSpec where
  index : Nat
  start : ℚ
  duration : Option ℚ
  deriving DecidableEq, Repr

/-- Embedding of `create_chunk(chunk_index)`: `chunk_duration = duration / num_chunks`,
`start_time = (chunk_index - 1) * chunk_duration`; the last chunk
(`chunk_index == num_chunks`) gets no `-t` flag, i.e. an unbounded duration. -/
def create_chunk (T : ℚ) (N i : Nat) : ChunkSpec :=
  { index := i,
    start := ((i - 1 : Nat) : ℚ) * (T / (N : ℚ)),
    duration := if i = N then none else some (T / (N : ℚ)) }

/-- The full chunk plan: `create_chunk i` for `i in range(1, num_chunks + 1)`. -/
def chunkPlan (T : ℚ) (N : Nat) : List ChunkSpec :=
  (List.range' 1 N).map (create_chunk T N)

/-- Outcome of the split phase: the boolean return value of
`split_video_into_chunks` and whether the temp directory was (re)created
(the directory is recreated right after a successful duration probe). -/
structure SplitOutcome where
  ok : Bool
  dirCreated : Bool
  deriving DecidableEq, Repr

/-- Verification loop of `split_video_into_chunks` (`for i in range(1, num_chunks + 1)`):
a missing chunk file returns `False` immediately; an existing chunk whose
duration probe is unsuccessful or zero (Python falsy `chunk_dur`) only prints
a `duration unknown` line and the loop continues.  Returns the verdict and
the printed lines. -/
def verifyChunks (chunkEx : Nat → Bool) (chunkDur : Nat → Option ℚ) : List Nat → Bool × List String
  | [] => (true, [])
  | i :: rest =>
    if chunkEx i then
      let line :=
        match chunkDur i with
        | some d =>
          if d ≠ 0 then "chunk " ++ toString i ++ " created"
          else "chunk " ++ toString i ++ " duration unknown"
        | none => "chunk " ++ toString i ++ " duration unknown"
      let r := verifyChunks chunkEx chunkDur rest
      (r.1, line :: r.2)
    else (false, ["chunk " ++ toString i ++ " missing"])

/-- Embedding of `split_video_into_chunks`.  Inputs model the external world:
`srcDur` is the `ffprobe` result on the source, `invokeOk i` whether the
`ffmpeg` invocation for chunk `i` raised, `chunkEx i` whether chunk file `i`
exists afterwards, `chunkDur i` its probed duration.  The function returns
`False` when the probe fails, when any invocation errors (the `as_completed`
loop checks every result), or when the verification loop finds a missing
chunk file. -/
def split_video_into_chunks (srcDur : Option ℚ) (invokeOk chunkEx : Nat → Bool)
    (chunkDur : Nat → Option ℚ) (N : Nat) : SplitOutcome :=
  match srcDur with
  | none => { ok := false, dirCreated := false }
  | some _ =>
    { ok := if (List.range' 1 N).all invokeOk
            then (verifyChunks chunkEx chunkDur (List.range' 1 N)).1
            else false,
      dirCreated := true }

/-- Concatenation of a list of file contents, the specification-side view of
sequential `outfile.write(infile.read())` calls. -/
def concatAll : List String → String
  | [] => ""
  | s :: rest => s ++ concatAll rest

/-- One iteration of the transcript-combining loop of `process_video`:
if the fragment for chunk `i` exists its contents are appended to the
output file, otherwise a warning naming chunk `i` is recorded and the loop
continues. -/
def combineStep (frags : Nat → Option String) (acc : String × List Nat) (i : Nat) :
    String × List Nat :=
  match frags i with
  | some t => (acc.1 ++ t, acc.2)
  | none => (acc.1, acc.2 ++ [i])

/-- The combining loop `for i in range(1, num_chunks + 1)` of `process_video`:
final transcript contents together with the list of chunk indices for which
a `Transcript for chunk i not found` warning was printed. -/
def combineTranscripts (frags : Nat → Option String) (N : Nat) : String × List Nat :=
  (List.range' 1 N).foldl (combineStep frags) ("", [])

/-- Writing the final transcript with `open(final_transcript, 'w')`: mode `w`
truncates, so the resulting file contents are the new contents whatever was
there before. -/
def writeFinalTranscript (prior : Option String) (content : String) : Option String :=
  some content

/-- Worker boundary of `transcribe_chunk`: the whole body runs inside one
`try`, and any exception is converted into `(chunk_num, False, str(e))`
while success yields `(chunk_num, True, None)`. -/
def transcribe_chunk (chunk_num : Nat) (outcome : Except String Unit) :
    Nat × Bool × Option String :=
  match outcome with
  | Except.ok _ => (chunk_num, true, none)
  | Except.error e => (chunk_num, false, some e)

/-- One observation of a progress file: the file may be absent, present but
unreadable (the `json.load` raises and the `except` clause swallows it), or
readable with a parsed record. -/
inductive ChannelRead where
  | absent : ChannelRead
  | unreadable : ChannelRead
  | readable : ProgressData → ChannelRead
  deriving DecidableEq, Repr

/-- Percent carried by an observation; `0` when nothing was read
(`prev_data.get("percent", 0)` defaults to zero). -/
def readPercent : ChannelRead → Int
  | ChannelRead.readable d => d.percent
  | _ => 0

/-- Staggered-start gate test of `transcribe_chunk`: one poll of the previous
chunk progress file passes only when the file exists, is readable and its
percent is at least 2; an absent or unreadable file keeps the worker
waiting. -/
def gatePasses : ChannelRead → Bool
  | ChannelRead.readable d => decide (2 ≤ d.percent)
  | _ => false

/-- The `while True` polling loop of the gate, with explicit fuel: returns the
first poll tick at which the gate passes, or `none` when the gate never
passes within the fuel (the loop in the script has no timeout). -/
def firstGateOpen (obs : Nat → ChannelRead) : Nat → Nat → Option Nat
  | _, 0 => none
  | t, fuel + 1 => if gatePasses (obs t) then some t else firstGateOpen obs (t + 1) fuel

/-- Condition `chunk_num > 1 and temp_dir` guarding the gate. -/
def gateApplies (chunk_num : Nat) (tempDirGiven : Bool) : Bool :=
  decide (1 < chunk_num) && tempDirGiven

/-- Poll tick at which the worker proceeds to `write_progress(0, 1, "loading_model")`
and `whisper.load_model`: chunk 1 (or a worker without a temp dir) starts
immediately at tick 0, a later chunk starts at the first tick where the gate
passes. -/
def modelLoadStart (chunk_num : Nat) (tempDirGiven : Bool) (obs : Nat → ChannelRead)
    (fuel : Nat) : Option Nat :=
  if gateApplies chunk_num tempDirGiven then firstGateOpen obs 0 fuel else some 0

/-- Gate poll interval, from `time_module.sleep(0.5)` in the gate loop. -/
def gatePollIntervalSec : ℚ := 1 / 2

/-- One monitor update for one chunk, from `monitor_progress`: the displayed
value increases to the read percent only when the read percent exceeds the
last seen value (`if percent > last_percent[i]`); an absent or unreadable
file leaves the displayed value unchanged. -/
def monitorStep (last : Int) : ChannelRead → Int
  | ChannelRead.readable d => if d.percent > last then d.percent else last
  | _ => last

/-- Displayed percent after folding a sequence of observations starting from
an initial value. -/
def displayedFrom (init : Int) (trace : List ChannelRead) : Int :=
  trace.foldl monitorStep init

/-- Displayed percent of one chunk after a sequence of observations;
`last_percent[i]` starts at 0. -/
def displayedPercent (trace : List ChannelRead) : Int :=
  displayedFrom 0 trace

/-- Whether one chunk observation clears `all_done` in `monitor_progress`:
an absent file clears it, a readable record clears it unless its status is
`complete`, and an unreadable file does NOT clear it (the `except: pass`
leaves `all_done` untouched). -/
def chunkClearsDone : ChannelRead → Bool
  | ChannelRead.absent => true
  | ChannelRead.unreadable => false
  | ChannelRead.readable d => decide (d.status ≠ "complete")

/-- The `all_done` flag after one sweep over all chunk progress files. -/
def allDone (reads : List ChannelRead) : Bool :=
  reads.all (fun r => !(chunkClearsDone r))

/-- Exit test of the monitor loop: `if stop_monitor.is_set() and all_done: break`. -/
def monitorExitsNow (stopSet : Bool) (reads : List ChannelRead) : Bool :=
  stopSet && allDone reads

/-- Monitor poll interval, from `time_module.sleep(0.5)` in `monitor_progress`. -/
def monitorPollIntervalSec : ℚ := 1 / 2

/-- The temp directory of a `VideoTranscriber`:
`self.temp_dir = self.script_dir / ".temp_chunks"`, a fixed path per
transcriber, independent of any job. -/
def temp_dir_path (script_dir : String) : String :=
  script_dir ++ "/.temp_chunks"

/-- Chunk file path used by `split_video_into_chunks` and `process_video`:
`self.temp_dir / f"chunk_{i}.mp4"`. -/
def chunk_file_path (script_dir : String) (chunk_num : Nat) : String :=
  temp_dir_path script_dir ++ "/chunk_" ++ toString chunk_num ++ ".mp4"

/-- Progress file path used by `transcribe_chunk` and `monitor_progress`:
`temp_dir / f"progress_chunk_{i}.json"`. -/
def progress_file_path (script_dir : String) (chunk_num : Nat) : String :=
  temp_dir_path script_dir ++ "/progress_chunk_" ++ toString chunk_num ++ ".json"

/-- Fragment path used by `transcribe_chunk` and the combining loop:
`self.temp_dir / f"output_chunk_{i}" / f"chunk_{i}.txt"`. -/
def fragment_file_path (script_dir : String) (chunk_num : Nat) : String :=
  temp_dir_path script_dir ++ "/output_chunk_" ++ toString chunk_num
    ++ "/chunk_" ++ toString chunk_num ++ ".txt"

/-- Chunk file path as used while processing a given video: `process_video`
builds the path from `self.temp_dir` and the chunk index only, so the video
argument records which job uses the path without influencing it. -/
def job_chunk_file (script_dir : String) (video : String) (chunk_num : Nat) : String :=
  chunk_file_path script_dir chunk_num

/-- Progress file path as used while processing a given video. -/
def job_progress_file (script_dir : String) (video : String) (chunk_num : Nat) : String :=
  progress_file_path script_dir chunk_num

/-- Fragment path as used while processing a given video. -/
def job_fragment_file (script_dir : String) (video : String) (chunk_num : Nat) : String :=
  fragment_file_path script_dir chunk_num

/-- Temp directory as used while processing a given video. -/
def job_temp_dir (script_dir : String) (video : String) : String :=
  temp_dir_path script_dir

/-- Observable outcome of `process_video` for one job. -/
structure JobOutcome where
  success : Bool
  workersSpawned : Bool
  progressRecordsCreated : Bool
  tempDirCreated : Bool
  cleanupRun : Bool
  transcript : Option String
  aggWarnings : List Nat
  failedReport : List (Nat × Option String)
  deriving DecidableEq, Repr

/-- The `as_completed` result-collection loop of `process_video`: worker
results land in arrival order. -/
def collectResults (workerRes : Nat → Bool × Option String) (arrival : List Nat) :
    List (Nat × Bool × Option String) :=
  arrival.map (fun i => (i, (workerRes i).1, (workerRes i).2))

/-- Embedding of `process_video` for one job.  Control flow: a failed split
returns `False` at once (no workers submitted, no progress records, no
cleanup); a `KeyboardInterrupt` during result collection removes the temp
directory and returns `False`; otherwise the failed-chunk report is printed
from the collected results, the final transcript is combined from whatever
fragment files exist, cleanup runs when `self.cleanup` is set, and the
function returns `True`. -/
def process_video (N : Nat) (srcDur : Option ℚ) (invokeOk chunkEx : Nat → Bool)
    (chunkDur : Nat → Option ℚ) (interrupted : Bool)
    (workerRes : Nat → Bool × Option String) (arrival : List Nat)
    (frags : Nat → Option String) (cleanupFlag : Bool) : JobOutcome :=
  let sp := split_video_into_chunks srcDur invokeOk chunkEx chunkDur N
  if sp.ok then
    if interrupted then
      { success := false, workersSpawned := true, progressRecordsCreated := true,
        tempDirCreated := sp.dirCreated, cleanupRun := true,
        transcript := none, aggWarnings := [], failedReport := [] }
    else
      let res := collectResults workerRes arrival
      let failed := (res.filter (fun r => !r.2.1)).map (fun r => (r.1, r.2.2))
      let combined := combineTranscripts frags N
      { success := true, workersSpawned := true, progressRecordsCreated := true,
        tempDirCreated := sp.dirCreated, cleanupRun := cleanupFlag,
        transcript := some combined.1, aggWarnings := combined.2, failedReport := failed }
  else
    { success := false, workersSpawned := false, progressRecordsCreated := false,
      tempDirCreated := sp.dirCreated, cleanupRun := false,
      transcript := none, aggWarnings := [], failedReport := [] }

/-
  Helper lemmas.
-/

/-- Empty string is a right identity for append. -/
theorem str_append_empty (s : String) : s ++ "" = s := by
  cases s
  show String.mk _ = String.mk _
  rw [List.append_nil]

/-- String append is associative. -/
theorem str_append_assoc (a b c : String) : a ++ b ++ c = a ++ (b ++ c) := by
  cases a; cases b; cases c
  show String.mk _ = String.mk _
  rw [List.append_assoc]

/-- Closed form of the transcript-combining fold: contents are the ordered
concatenation of the fragments that exist, warnings are the indices of the
fragments that do not. -/
theorem combineTranscripts_foldl (frags : Nat → Option String) :
    ∀ (l : List Nat) (acc : String × List Nat),
      l.foldl (combineStep frags) acc =
        (acc.1 ++ concatAll (l.filterMap frags),
         acc.2 ++ l.filter (fun i => (frags i).isNone)) := by
  intro l
  induction l with
  | nil =>
    intro acc
    simp [concatAll, str_append_empty]
  | cons i rest ih =>
    intro acc
    cases h : frags i with
    | some t =>
      simp only [List.foldl_cons, combineStep, h, ih, List.filterMap_cons, concatAll,
        List.filter_cons, Option.isNone_some, str_append_assoc, Bool.false_eq_true,
        if_false]
    | none =>
      simp only [List.foldl_cons, combineStep, h, ih, List.filterMap_cons, concatAll,
        List.filter_cons, Option.isNone_none, if_true, List.append_assoc,
        List.singleton_append]

/-- Contents half of the closed form. -/
theorem combineTranscripts_fst (frags : Nat → Option String) (N : Nat) :
    (combineTranscripts frags N).1 = concatAll ((List.range' 1 N).filterMap frags) := by
  have h := combineTranscripts_foldl frags (List.range' 1 N) ("", [])
  rw [combineTranscripts, h]
  cases hs : concatAll ((List.range' 1 N).filterMap frags)
  show String.mk _ = String.mk _
  rw [List.nil_append]

/-- Warnings half of the closed form. -/
theorem combineTranscripts_snd (frags : Nat → Option String) (N : Nat) :
    (combineTranscripts frags N).2 =
      (List.range' 1 N).filter (fun i => (frags i).isNone) := by
  have h := combineTranscripts_foldl frags (List.range' 1 N) ("", [])
  rw [combineTranscripts, h]
  exact List.nil_append _

/-- Fragment count partition: the fragments that exist and the warning
indices together account for every chunk index. -/
theorem filterMap_filter_length (frags : Nat → Option String) :
    ∀ l : List Nat,
      (l.filterMap frags).length + (l.filter (fun i => (frags i).isNone)).length
        = l.length := by
  intro l
  induction l with
  | nil => rfl
  | cons i rest ih =>
    cases h : frags i with
    | some t =>
      simp only [List.filterMap_cons, h, List.filter_cons, Option.isNone_some,
        Bool.false_eq_true, if_false, List.length_cons]
      omega
    | none =>
      simp only [List.filterMap_cons, h, List.filter_cons, Option.isNone_none,
        if_true, List.length_cons]
      omega

/-- A filter over a duplicate-free list whose predicate holds at exactly one
member is that single member. -/
theorem filter_eq_single (p : Nat → Bool) :
    ∀ (l : List Nat) (k : Nat), l.Nodup → k ∈ l → p k = true →
      (∀ i ∈ l, i ≠ k → p i = false) → l.filter p = [k] := by
  intro l
  induction l with
  | nil => intro k _ hk; exact absurd hk (List.not_mem_nil k)
  | cons a rest ih =>
    intro k hnd hk hpk hothers
    rcases List.mem_cons.mp hk with rfl | hmem
    · have hrest : rest.filter p = [] := by
        rw [List.filter_eq_nil_iff]
        intro b hb
        have hbk : b ≠ k := by
          intro hbk
          exact (List.nodup_cons.mp hnd).1 (hbk ▸ hb)
        simp [hothers b (List.mem_cons_of_mem _ hb) hbk]
      simp [List.filter_cons, hpk, hrest]
    · have hak : a ≠ k := by
        intro hak
        exact (List.nodup_cons.mp hnd).1 (hak ▸ hmem)
      have hpa : p a = false := hothers a (List.mem_cons_self a rest) hak
      rw [List.filter_cons_of_neg (by simp [hpa])]
      exact ih k (List.nodup_cons.mp hnd).2 hmem hpk
        (fun i hi => hothers i (List.mem_cons_of_mem _ hi))

/-- Verification verdict of the split phase: true exactly when every chunk
file exists; an unknown or zero chunk duration never changes the verdict. -/
theorem verifyChunks_fst (chunkEx : Nat → Bool) (chunkDur : Nat → Option ℚ) :
    ∀ l : List Nat, (verifyChunks chunkEx chunkDur l).1 = l.all chunkEx := by
  intro l
  induction l with
  | nil => rfl
  | cons i rest ih =>
    by_cases h : chunkEx i = true
    · simp [verifyChunks, h, ih]
    · simp only [Bool.not_eq_true] at h
      simp [verifyChunks, h]

/-- Verdict of the whole split phase as one boolean formula. -/
theorem split_ok_iff (srcDur : Option ℚ) (invokeOk chunkEx : Nat → Bool)
    (chunkDur : Nat → Option ℚ) (N : Nat) :
    (split_video_into_chunks srcDur invokeOk chunkEx chunkDur N).ok =
      (srcDur.isSome && (List.range' 1 N).all invokeOk
        && (List.range' 1 N).all chunkEx) := by
  cases srcDur with
  | none => rfl
  | some d =>
    show (if (List.range' 1 N).all invokeOk
          then (verifyChunks chunkEx chunkDur (List.range' 1 N)).1
          else false) = _
    rw [verifyChunks_fst]
    cases h : (List.range' 1 N).all invokeOk <;> simp [h]

/-- Every tick returned by the gate polling loop passes the gate, lies at or
after the starting tick, and is the first such tick. -/
theorem firstGateOpen_spec (obs : Nat → ChannelRead) :
    ∀ (fuel t0 t : Nat), firstGateOpen obs t0 fuel = some t →
      gatePasses (obs t) = true ∧ t0 ≤ t ∧
        ∀ s, t0 ≤ s → s < t → gatePasses (obs s) = false := by
  intro fuel
  induction fuel with
  | zero => intro t0 t h; exact absurd h (by simp [firstGateOpen])
  | succ fuel ih =>
    intro t0 t h
    by_cases hg : gatePasses (obs t0) = true
    · have ht : t0 = t := by
        have : some t0 = some t := by rw [← h]; simp [firstGateOpen, hg]
        exact Option.some.inj this
      subst ht
      exact ⟨hg, le_refl t0, fun s hs1 hs2 => absurd (lt_of_le_of_lt hs1 hs2) (lt_irrefl t0)⟩
    · simp only [Bool.not_eq_true] at hg
      have h' : firstGateOpen obs (t0 + 1) fuel = some t := by
        have := h
        simp only [firstGateOpen, hg, Bool.false_eq_true, if_false] at this
        exact this
      obtain ⟨hp, hle, hfirst⟩ := ih (t0 + 1) t h'
      refine ⟨hp, le_trans (Nat.le_succ t0) hle, ?_⟩
      intro s hs1 hs2
      rcases Nat.eq_or_lt_of_le hs1 with rfl | hlt
      · exact hg
      · exact hfirst s hlt hs2

/-- When no poll ever passes the gate, the loop never returns. -/
theorem firstGateOpen_none (obs : Nat → ChannelRead)
    (h : ∀ t, gatePasses (obs t) = false) :
    ∀ (fuel t0 : Nat), firstGateOpen obs t0 fuel = none := by
  intro fuel
  induction fuel with
  | zero => intro t0; rfl
  | succ fuel ih =>
    intro t0
    simp [firstGateOpen, h t0, ih]

/-- A passing gate observation is a readable record with percent at least 2. -/
theorem gatePasses_iff (r : ChannelRead) :
    gatePasses r = true ↔ ∃ d, r = ChannelRead.readable d ∧ 2 ≤ d.percent := by
  cases r with
  | absent =>
    simp only [gatePasses, Bool.false_eq_true, false_iff]
    rintro ⟨d, h, _⟩
    exact ChannelRead.noConfusion h
  | unreadable =>
    simp only [gatePasses, Bool.false_eq_true, false_iff]
    rintro ⟨d, h, _⟩
    exact ChannelRead.noConfusion h
  | readable d =>
    simp only [gatePasses, decide_eq_true_eq]
    constructor
    · intro h; exact ⟨d, rfl, h⟩
    · rintro ⟨d', h, hp⟩
      cases ChannelRead.readable.inj h
      exact hp

/-- One monitor update never decreases the displayed value. -/
theorem monitorStep_ge (last : Int) (r : ChannelRead) : last ≤ monitorStep last r := by
  cases r with
  | readable d =>
    show last ≤ if d.percent > last then d.percent else last
    by_cases h : d.percent > last
    · rw [if_pos h]; exact le_of_lt h
    · rw [if_neg h]
  | absent => exact le_refl last
  | unreadable => exact le_refl last

/-- One monitor update is monotone in the previous displayed value. -/
theorem monitorStep_mono {a b : Int} (h : a ≤ b) (r : ChannelRead) :
    monitorStep a r ≤ monitorStep b r := by
  cases r with
  | readable d =>
    show (if d.percent > a then d.percent else a) ≤ if d.percent > b then d.percent else b
    by_cases ha : d.percent > a <;> by_cases hb : d.percent > b <;>
      simp [ha, hb] <;> omega
  | absent => exact h
  | unreadable => exact h

/-- One monitor update never exceeds the larger of the previous displayed
value and the percent just read. -/
theorem monitorStep_le (last : Int) (r : ChannelRead) :
    monitorStep last r ≤ max last (readPercent r) := by
  cases r with
  | readable d =>
    show (if d.percent > last then d.percent else last) ≤ max last d.percent
    by_cases h : d.percent > last
    · rw [if_pos h]; exact le_max_right last d.percent
    · rw [if_neg h]; exact le_max_left last d.percent
  | absent => exact le_max_left last 0
  | unreadable => exact le_max_left last 0

/-- The displayed value never falls below its starting value. -/
theorem displayedFrom_ge (trace : List ChannelRead) :
    ∀ init : Int, init ≤ displayedFrom init trace := by
  induction trace with
  | nil => intro init; exact le_refl init
  | cons r rest ih =>
    intro init
    exact le_trans (monitorStep_ge init r) (ih (monitorStep init r))

/-- The displayed value is monotone in its starting value. -/
theorem displayedFrom_mono (trace : List ChannelRead) :
    ∀ {a b : Int}, a ≤ b → displayedFrom a trace ≤ displayedFrom b trace := by
  induction trace with
  | nil => intro a b h; exact h
  | cons r rest ih =>
    intro a b h
    exact ih (monitorStep_mono h r)

/-- The displayed value stays below any bound that dominates the starting
value and every observed percent. -/
theorem displayedFrom_le (bound : Int) (trace : List ChannelRead) :
    ∀ init : Int, (∀ r ∈ trace, readPercent r ≤ bound) → init ≤ bound →
      displayedFrom init trace ≤ bound := by
  induction trace with
  | nil => intro init _ h; exact h
  | cons r rest ih =>
    intro init hall hinit
    refine ih (monitorStep init r) (fun x hx => hall x (List.mem_cons_of_mem _ hx)) ?_
    have h1 := monitorStep_le init r
    have h2 := hall r (List.mem_cons_self r rest)
    exact le_trans h1 (max_le hinit h2)

/-- The displayed value reaches at least the percent of every readable
observation in the trace. -/
theorem readable_le_displayedFrom (d : ProgressData) (trace : List ChannelRead) :
    ∀ init : Int, ChannelRead.readable d ∈ trace → d.percent ≤ displayedFrom init trace := by
  induction trace with
  | nil => intro init h; exact absurd h (List.not_mem_nil _)
  | cons r rest ih =>
    intro init hmem
    rcases List.mem_cons.mp hmem with rfl | hmem'
    · refine le_trans ?_ (displayedFrom_ge rest (monitorStep init _))
      show d.percent ≤ if d.percent > init then d.percent else init
      by_cases h : d.percent > init
      · rw [if_pos h]
      · rw [if_neg h]; omega
    · exact ih (monitorStep init r) hmem'

/-
  Claim theorems.
-/

/-- Claim C1: for every total duration T > 0 and chunk count N at least 1, the
chunk plan has exactly N specs, spec i (1-based) starts at (i-1) * T/N, every
chunk before the last has duration T/N, the last chunk is unbounded (read to
end-of-stream), and for T = 300, N = 3 the plan is (0,100), (100,100),
(200,unbounded). -/
theorem chunkPlanner_spec (T : ℚ) (N : Nat) (hT : 0 < T) (hN : 1 ≤ N) :
    (chunkPlan T N).length = N ∧
    (∀ i : Nat, 1 ≤ i → i ≤ N →
      (chunkPlan T N)[i - 1]? =
        some { index := i, start := ((i - 1 : Nat) : ℚ) * (T / (N : ℚ)),
               duration := if i = N then none else some (T / (N : ℚ)) }) ∧
    chunkPlan 300 3 =
      [{ index := 1, start := 0, duration := some 100 },
       { index := 2, start := 100, duration := some 100 },
       { index := 3, start := 200, duration := none }] := by
  refine ⟨?_, ?_, ?_⟩
  · simp [chunkPlan, List.length_range']
  · intro i h1 h2
    have hlt : i - 1 < N := by omega
    have hi : 1 + (i - 1) = i := by omega
    rw [chunkPlan, List.getElem?_map]
    simp [List.getElem?_range', hlt, hi, create_chunk]
  · simp [chunkPlan, create_chunk, List.range']
    norm_num

/-- Witness for chunkPlanner_spec at the concrete scenario T = 300, N = 3. -/
theorem chunkPlanner_spec_witness :
    (chunkPlan 300 3).length = 3 ∧
    chunkPlan 300 3 =
      [{ index := 1, start := 0, duration := some 100 },
       { index := 2, start := 100, duration := some 100 },
       { index := 3, start := 200, duration := none }] := by
  have h := chunkPlanner_spec 300 3 (by norm_num) (by norm_num)
  exact ⟨h.1, h.2.2⟩

/-- Claim C2: the final transcript equals the ordered concatenation of the
fragment files that exist for chunks 1..N, the aggregation warnings name
exactly the absent chunks (and the loop continues past them), and the
transcript does not depend on the arrival order of worker results. -/
theorem final_transcript_ordered_concat (frags : Nat → Option String) (N : Nat)
    (arrivalA arrivalB : List Nat) (srcDur : Option ℚ) (invokeOk chunkEx : Nat → Bool)
    (chunkDur : Nat → Option ℚ) (workerRes : Nat → Bool × Option String)
    (cleanupFlag : Bool) :
    (combineTranscripts frags N).1 = concatAll ((List.range' 1 N).filterMap frags) ∧
    (combineTranscripts frags N).2 =
      (List.range' 1 N).filter (fun i => (frags i).isNone) ∧
    (process_video N srcDur invokeOk chunkEx chunkDur false workerRes arrivalA frags
        cleanupFlag).transcript =
      (process_video N srcDur invokeOk chunkEx chunkDur false workerRes arrivalB frags
        cleanupFlag).transcript := by
  refine ⟨combineTranscripts_fst frags N, combineTranscripts_snd frags N, ?_⟩
  cases h : (split_video_into_chunks srcDur invokeOk chunkEx chunkDur N).ok <;>
    simp [process_video, h]

/-- Claim C3 counterexample: a chunk file that exists but whose duration probe
yields nothing (an empty or unreadable chunk) does NOT fail the split phase;
the verification loop only prints a duration-unknown line and the job
proceeds to spawn workers. -/
theorem split_accepts_empty_chunk :
    (split_video_into_chunks (some 300) (fun _ => true) (fun _ => true)
        (fun _ => none) 1).ok = true ∧
    (verifyChunks (fun _ => true) (fun _ => none) (List.range' 1 1)).2 =
      ["chunk 1 duration unknown"] ∧
    (process_video 1 (some 300) (fun _ => true) (fun _ => true) (fun _ => none) false
        (fun _ => (true, none)) [1] (fun _ => some "text") true).workersSpawned = true :=
  ⟨rfl, rfl, rfl⟩

/-- Claim C3 (amended): the split phase fails exactly when the duration probe
fails, or some chunk invocation errors, or some chunk file is missing after
the parallel phase — an existing chunk with unknown or zero duration does not
fail it — and on split failure no transcription worker is spawned, no
progress record is created, and the job reports failure. -/
theorem split_failure_characterization (srcDur : Option ℚ)
    (invokeOk chunkEx : Nat → Bool) (chunkDur : Nat → Option ℚ) (N : Nat)
    (interrupted : Bool) (workerRes : Nat → Bool × Option String)
    (arrival : List Nat) (frags : Nat → Option String) (cleanupFlag : Bool) :
    ((split_video_into_chunks srcDur invokeOk chunkEx chunkDur N).ok =
      (srcDur.isSome && (List.range' 1 N).all invokeOk
        && (List.range' 1 N).all chunkEx)) ∧
    ((split_video_into_chunks srcDur invokeOk chunkEx chunkDur N).ok = false →
      (process_video N srcDur invokeOk chunkEx chunkDur interrupted workerRes arrival
          frags cleanupFlag).workersSpawned = false ∧
      (process_video N srcDur invokeOk chunkEx chunkDur interrupted workerRes arrival
          frags cleanupFlag).progressRecordsCreated = false ∧
      (process_video N srcDur invokeOk chunkEx chunkDur interrupted workerRes arrival
          frags cleanupFlag).success = false) := by
  refine ⟨split_ok_iff srcDur invokeOk chunkEx chunkDur N, ?_⟩
  intro h
  refine ⟨?_, ?_, ?_⟩ <;> simp [process_video, h]

/-- Witness for split_failure_characterization with a failing duration probe. -/
theorem split_failure_characterization_witness :
    (process_video 1 none (fun _ => true) (fun _ => true) (fun _ => some 1) false
        (fun _ => (true, none)) [1] (fun _ => none) true).workersSpawned = false ∧
    (process_video 1 none (fun _ => true) (fun _ => true) (fun _ => some 1) false
        (fun _ => (true, none)) [1] (fun _ => none) true).progressRecordsCreated
      = false := by
  have h := split_failure_characterization none (fun _ => true) (fun _ => true)
    (fun _ => some 1) 1 false (fun _ => (true, none)) [1] (fun _ => none) true
  have h2 := h.2 rfl
  exact ⟨h2.1, h2.2.1⟩

/-- Claim C4: worker 1 starts model loading immediately; a worker for chunk
i > 1 begins model loading only at the first poll tick at which the previous
chunk progress record is readable with percent at least 2; while the record
stays absent or unreadable the worker keeps waiting; the poll interval is a
fixed 0.5 seconds. -/
theorem staggered_gate_spec (obs : Nat → ChannelRead) (fuel : Nat) :
    modelLoadStart 1 true obs fuel = some 0 ∧
    (∀ n : Nat, 1 < n → ∀ t : Nat, modelLoadStart n true obs fuel = some t →
      (∃ d, obs t = ChannelRead.readable d ∧ 2 ≤ d.percent) ∧
      ∀ s : Nat, s < t → gatePasses (obs s) = false) ∧
    ((∀ t : Nat, obs t = ChannelRead.absent ∨ obs t = ChannelRead.unreadable) →
      ∀ n : Nat, 1 < n → modelLoadStart n true obs fuel = none) ∧
    gatePollIntervalSec = 1 / 2 := by
  refine ⟨rfl, ?_, ?_, rfl⟩
  · intro n hn t h
    have happ : gateApplies n true = true := by simp [gateApplies, hn]
    simp only [modelLoadStart, happ, if_true] at h
    obtain ⟨hp, _, hfirst⟩ := firstGateOpen_spec obs fuel 0 t h
    exact ⟨(gatePasses_iff (obs t)).mp hp, fun s hs => hfirst s (Nat.zero_le s) hs⟩
  · intro hall n hn
    have happ : gateApplies n true = true := by simp [gateApplies, hn]
    simp only [modelLoadStart, happ, if_true]
    apply firstGateOpen_none
    intro t
    rcases hall t with h | h <;> rw [h] <;> rfl

/-- Witness for staggered_gate_spec: a previous-chunk record at 2 percent
opens the gate at the first poll. -/
theorem staggered_gate_spec_witness :
    modelLoadStart 1 true
      (fun _ => ChannelRead.readable (writeProgressRecord 1 2 100 "transcribing")) 1
      = some 0 ∧
    (∃ d, (fun _ => ChannelRead.readable (writeProgressRecord 1 2 100 "transcribing"))
        0 = ChannelRead.readable d ∧ 2 ≤ d.percent) := by
  have h := staggered_gate_spec
    (fun _ => ChannelRead.readable (writeProgressRecord 1 2 100 "transcribing")) 1
  exact ⟨h.1, (h.2.1 2 (by norm_num) 0 rfl).1⟩

/-- Claim C5: an exception in a worker is caught at the worker boundary and
converted into the result (chunk_num, false, message) instead of a crash;
with the other fragments present the job still combines the other N-1
fragments in index order and prints exactly one aggregation warning naming
the failed chunk. -/
theorem worker_failure_isolated (N k : Nat) (e : String) (frags : Nat → Option String)
    (hk : k ∈ List.range' 1 N) (hmiss : frags k = none)
    (hoth : ∀ i ∈ List.range' 1 N, i ≠ k → (frags i).isSome = true) :
    transcribe_chunk k (Except.error e) = (k, false, some e) ∧
    (combineTranscripts frags N).1 = concatAll ((List.range' 1 N).filterMap frags) ∧
    ((List.range' 1 N).filterMap frags).length = N - 1 ∧
    (combineTranscripts frags N).2 = [k] := by
  have hfilter : (List.range' 1 N).filter (fun i => (frags i).isNone) = [k] := by
    apply filter_eq_single _ _ _ (List.nodup_range' 1 N) hk (by simp [hmiss])
    intro i hi hne
    have hs := hoth i hi hne
    cases hfi : frags i with
    | none => rw [hfi] at hs; exact absurd hs (by simp)
    | some t => simp [hfi]
  refine ⟨rfl, combineTranscripts_fst frags N, ?_, ?_⟩
  · have hlen := filterMap_filter_length frags (List.range' 1 N)
    rw [hfilter] at hlen
    simp only [List.length_singleton, List.length_range'] at hlen
    omega
  · rw [combineTranscripts_snd, hfilter]

/-- Witness for worker_failure_isolated: three chunks, chunk 2 failed. -/
theorem worker_failure_isolated_witness :
    transcribe_chunk 2 (Except.error "boom") = (2, false, some "boom") ∧
    (combineTranscripts (fun i => if i = 2 then none else some "x") 3).2 = [2] ∧
    ((List.range' 1 3).filterMap (fun i => if i = 2 then none else some "x")).length
      = 2 := by
  have h := worker_failure_isolated 3 2 "boom"
    (fun i => if i = 2 then none else some "x") (by decide) (by decide) (by decide)
  exact ⟨h.1, h.2.2.2, h.2.2.1⟩

/-- Claim C6 counterexample: reading the transcribed record — written with
percent 100 and status transcribed before the fragment is saved — already
drives the displayed percent to 100, so a displayed 100 does not imply that
the worker reported status complete. -/
theorem displayed_percent_100_without_complete :
    displayedPercent [ChannelRead.readable (writeProgressRecord 1 1 1 "transcribed")]
      = 100 ∧
    ∀ r ∈ [ChannelRead.readable (writeProgressRecord 1 1 1 "transcribed")],
      ∀ d : ProgressData, r = ChannelRead.readable d → d.status ≠ "complete" := by
  refine ⟨rfl, ?_⟩
  intro r hr d hd
  simp only [List.mem_singleton] at hr
  subst hr
  cases ChannelRead.readable.inj hd
  decide

/-- Claim C6 (amended): the displayed percent of a chunk is non-decreasing
over time (a delta is emitted only when the read percent exceeds the
last-seen value); it reaches 100 whenever the worker complete record, which
carries percent 100, is observed and no observed percent exceeds 100; but
the converse fails: the displayed percent can reach 100 from a record whose
status is not complete, so 100 does not imply a complete report. -/
theorem monitor_percent_monotone_and_complete (trace extra : List ChannelRead) (c : Nat) :
    displayedPercent trace ≤ displayedPercent (trace ++ extra) ∧
    ((∀ r ∈ trace, readPercent r ≤ 100) →
      ChannelRead.readable (writeProgressRecord c 1 1 "complete") ∈ trace →
      displayedPercent trace = 100) := by
  constructor
  · rw [displayedPercent, displayedPercent, displayedFrom, displayedFrom,
      List.foldl_append]
    exact displayedFrom_ge extra _
  · intro hb hm
    have hp : (writeProgressRecord c 1 1 "complete").percent = 100 := by
      norm_num [writeProgressRecord, progressPercent]
    have h1 := readable_le_displayedFrom (writeProgressRecord c 1 1 "complete") trace 0 hm
    rw [hp] at h1
    have h2 : displayedFrom 0 trace ≤ 100 := displayedFrom_le 100 trace 0 hb (by norm_num)
    rw [displayedPercent]
    omega

/-- Witness for monitor_percent_monotone_and_complete: observing the complete
record drives the displayed percent to 100. -/
theorem monitor_percent_monotone_and_complete_witness :
    displayedPercent [ChannelRead.readable (writeProgressRecord 1 1 1 "complete")]
      = 100 := by
  have h := monitor_percent_monotone_and_complete
    [ChannelRead.readable (writeProgressRecord 1 1 1 "complete")] [] 1
  exact h.2 (by decide) (by decide)

/-- Claim C7 is right about the design and wrong about the code (code bug):
the transcriber keeps one fixed directory .temp_chunks per run, shared by
every job, so when two jobs are in flight (file-level threads at least 2, as
in the documented --default configuration) both use the very same chunk
files, progress record keys and fragment locations, and the later job
recreates the directory while the earlier one is still using it.  Evaluated
here at two distinct videos of one run: every per-job path coincides. -/
theorem shared_temp_dir_across_jobs :
    job_temp_dir "/app" "video_a.mp4" = job_temp_dir "/app" "video_b.mp4" ∧
    job_chunk_file "/app" "video_a.mp4" 1 = job_chunk_file "/app" "video_b.mp4" 1 ∧
    job_progress_file "/app" "video_a.mp4" 1 = job_progress_file "/app" "video_b.mp4" 1 ∧
    job_fragment_file "/app" "video_a.mp4" 1 = job_fragment_file "/app" "video_b.mp4" 1 ∧
    ("video_a.mp4" : String) ≠ "video_b.mp4" :=
  ⟨rfl, rfl, rfl, rfl, by decide⟩

/-- Claim C8 counterexample: with the stop signal raised and one chunk whose
progress file exists but is unreadable, the monitor loop exits at once even
though that chunk never reported status complete — the except clause leaves
all_done untouched for an unreadable file — and no pool result is consulted
by the loop at all. -/
theorem monitor_exits_on_unreadable_channel :
    monitorExitsNow true [ChannelRead.unreadable] = true ∧
    ¬ ∃ d : ProgressData,
        (ChannelRead.unreadable : ChannelRead) = ChannelRead.readable d ∧
        d.status = "complete" := by
  refine ⟨rfl, ?_⟩
  rintro ⟨d, h, _⟩
  exact ChannelRead.noConfusion h

/-- Claim C8 (amended): the monitor loop exits exactly when the stop signal
has been raised AND, for every chunk, the progress file exists and — when it
is readable — reports status complete; a chunk whose file exists but is
unreadable is treated as done; the results reported by the pool play no part
in the condition; and the loop never exits while the stop signal is down, so
it never exits purely on a timer. -/
theorem monitor_exit_characterization (stopSet : Bool) (reads : List ChannelRead) :
    (monitorExitsNow stopSet reads = true ↔
      stopSet = true ∧ ∀ r ∈ reads, r = ChannelRead.unreadable ∨
        ∃ d, r = ChannelRead.readable d ∧ d.status = "complete") ∧
    monitorExitsNow false reads = false := by
  refine ⟨?_, rfl⟩
  rw [monitorExitsNow, Bool.and_eq_true, allDone, List.all_eq_true]
  constructor
  · rintro ⟨hs, hall⟩
    refine ⟨hs, fun r hr => ?_⟩
    have hr' := hall r hr
    cases r with
    | absent => simp [chunkClearsDone] at hr'
    | unreadable => exact Or.inl rfl
    | readable d =>
      refine Or.inr ⟨d, rfl, ?_⟩
      simpa [chunkClearsDone] using hr'
  · rintro ⟨hs, hall⟩
    refine ⟨hs, fun r hr => ?_⟩
    rcases hall r hr with rfl | ⟨d, rfl, hd⟩
    · rfl
    · simp [chunkClearsDone, hd]

/-- Witness for monitor_exit_characterization: stop raised and one chunk
whose record reads complete lets the loop exit. -/
theorem monitor_exit_characterization_witness :
    monitorExitsNow true [ChannelRead.readable (writeProgressRecord 1 1 1 "complete")]
      = true := by
  have h := monitor_exit_characterization true
    [ChannelRead.readable (writeProgressRecord 1 1 1 "complete")]
  refine (h.1).mpr ⟨rfl, ?_⟩
  intro r hr
  simp only [List.mem_singleton] at hr
  subst hr
  exact Or.inr ⟨_, rfl, rfl⟩

/-- Claim C9 counterexample: when the split phase fails after creating the
temp directory (here, chunk 1 missing after the parallel phase),
process_video returns at once and the transient directory is not removed,
contradicting removal in all outcomes. -/
theorem no_cleanup_on_split_failure :
    (process_video 1 (some 300) (fun _ => true) (fun _ => false) (fun _ => some 1) false
        (fun _ => (true, none)) [1] (fun _ => none) true).tempDirCreated = true ∧
    (process_video 1 (some 300) (fun _ => true) (fun _ => false) (fun _ => some 1) false
        (fun _ => (true, none)) [1] (fun _ => none) true).cleanupRun = false ∧
    (process_video 1 (some 300) (fun _ => true) (fun _ => false) (fun _ => some 1) false
        (fun _ => (true, none)) [1] (fun _ => none) true).success = false :=
  ⟨rfl, rfl, rfl⟩

/-- Claim C9 (amended): the transient directory is removed at job end on the
normal path (cleanup flag set, as it always is) and on interrupt, but on
split failure the job returns immediately and the directory is NOT removed
(it is only deleted and recreated by the next split phase). -/
theorem cleanup_characterization (N : Nat) (srcDur : Option ℚ)
    (invokeOk chunkEx : Nat → Bool) (chunkDur : Nat → Option ℚ)
    (interrupted : Bool) (workerRes : Nat → Bool × Option String)
    (arrival : List Nat) (frags : Nat → Option String) (cleanupFlag : Bool) :
    ((split_video_into_chunks srcDur invokeOk chunkEx chunkDur N).ok = false →
      (process_video N srcDur invokeOk chunkEx chunkDur interrupted workerRes arrival
          frags cleanupFlag).cleanupRun = false) ∧
    ((split_video_into_chunks srcDur invokeOk chunkEx chunkDur N).ok = true →
      interrupted = true →
      (process_video N srcDur invokeOk chunkEx chunkDur interrupted workerRes arrival
          frags cleanupFlag).cleanupRun = true) ∧
    ((split_video_into_chunks srcDur invokeOk chunkEx chunkDur N).ok = true →
      interrupted = false →
      (process_video N srcDur invokeOk chunkEx chunkDur interrupted workerRes arrival
          frags cleanupFlag).cleanupRun = cleanupFlag) := by
  refine ⟨fun h => ?_, fun h hi => ?_, fun h hi => ?_⟩
  · simp [process_video, h]
  · subst hi; simp [process_video, h]
  · subst hi; simp [process_video, h]

/-- Witness for cleanup_characterization: a successful job with the cleanup
flag set removes the directory. -/
theorem cleanup_characterization_witness :
    (process_video 1 (some 300) (fun _ => true) (fun _ => true) (fun _ => some 300) false
        (fun _ => (true, none)) [1] (fun _ => some "x") true).cleanupRun = true := by
  have h := cleanup_characterization 1 (some 300) (fun _ => true) (fun _ => true)
    (fun _ => some 300) false (fun _ => (true, none)) [1] (fun _ => some "x") true
  exact h.2.2 rfl rfl

/-- Claim C10: once the aggregation phase is reached (split succeeded, no
interrupt) the final transcript file is written unconditionally and mode w
truncates whatever file was there; in particular when every fragment is
absent — every worker failed — an empty transcript is still written and
process_video reports success. -/
theorem final_transcript_written_unconditionally (N : Nat) (srcDur : Option ℚ)
    (invokeOk chunkEx : Nat → Bool) (chunkDur : Nat → Option ℚ)
    (workerRes : Nat → Bool × Option String) (arrival : List Nat)
    (frags : Nat → Option String) (cleanupFlag : Bool) (prior : Option String)
    (hok : (split_video_into_chunks srcDur invokeOk chunkEx chunkDur N).ok = true) :
    (process_video N srcDur invokeOk chunkEx chunkDur false workerRes arrival frags
        cleanupFlag).transcript = some (combineTranscripts frags N).1 ∧
    (∀ content : String, writeFinalTranscript prior content = some content) ∧
    ((∀ i, frags i = none) →
      (process_video N srcDur invokeOk chunkEx chunkDur false workerRes arrival frags
          cleanupFlag).transcript = some "" ∧
      (process_video N srcDur invokeOk chunkEx chunkDur false workerRes arrival frags
          cleanupFlag).success = true) := by
  have htr : (process_video N srcDur invokeOk chunkEx chunkDur false workerRes arrival
      frags cleanupFlag).transcript = some (combineTranscripts frags N).1 := by
    simp [process_video, hok]
  refine ⟨htr, fun _ => rfl, fun hnone => ⟨?_, ?_⟩⟩
  · rw [htr]
    have hnil : (List.range' 1 N).filterMap frags = [] := by
      rw [List.filterMap_eq_nil_iff]
      intro a _
      exact hnone a
    rw [combineTranscripts_fst, hnil]
    rfl
  · simp [process_video, hok]

/-- Witness for final_transcript_written_unconditionally: one chunk, split
fine, the only worker failed, no fragment exists — the job still writes an
empty transcript and returns success. -/
theorem final_transcript_written_unconditionally_witness :
    (process_video 1 (some 300) (fun _ => true) (fun _ => true) (fun _ => some 300) false
        (fun _ => (false, some "err")) [1] (fun _ => none) true).transcript = some "" ∧
    (process_video 1 (some 300) (fun _ => true) (fun _ => true) (fun _ => some 300) false
        (fun _ => (false, some "err")) [1] (fun _ => none) true).success = true := by
  have h := final_transcript_written_unconditionally 1 (some 300) (fun _ => true)
    (fun _ => true) (fun _ => some 300) (fun _ => (false, some "err")) [1]
    (fun _ => none) true none rfl
  exact h.2.2 (fun i => rfl)
